import Mathlib

/-!
# Verification of the toolkit containers and iterator protocol

A shallow embedding of the toolkit library (`src/core/iterator.h`,
`src/ds/list.c`, `src/ds/vec.c`, `src/algo/sequence.h`) and proofs of the
behavioural claims about it.

Modelling conventions:
* Machine addresses are `Nat`; `0` plays no special role except where a C
  `NULL` pointer is modelled, which is done with `Option Nat` instead.
* The mutable store is an explicit `World` record threaded through every
  operation: a heap of list nodes, a store of list headers, the byte buffer
  contents of vectors (element-valued, indexed by address), and an allocator
  (an oracle stream of success/failure outcomes plus a fresh-address counter
  and the multiset of live blocks).
* Element payloads are an abstract type `α`; the byte-wise `memcpy` of C is
  modelled by storing the value itself.  The `element_size` fields are kept
  for fidelity but carry no semantic weight once sizes are abstracted.
* C functions that would exhibit undefined behaviour (dereferencing a
  dangling or type-confused pointer, calling through a null function
  pointer) are modelled as no-ops / `none` at exactly those points; every
  theorem below only exercises defined behaviour.
-/

namespace Tk

/-- `tk_error_t` from `core/error.h`. -/
inductive tk_error_t
  | TK_SUCCESS
  | TK_E_NOMEM
  | TK_E_INVALID_ARG
  | TK_E_UNKNOWN
  | TK_E_OUT_OF_BOUNDS
  | TK_E_EMPTY
  | TK_E_NOT_FOUND
deriving DecidableEq, Repr

export tk_error_t (TK_SUCCESS TK_E_NOMEM TK_E_INVALID_ARG)

/-- `tk_iter_category_t` from `core/iterator.h`. -/
inductive tk_iter_category_t
  | TK_ITER_FORWARD
  | TK_ITER_BIDIRECTIONAL
  | TK_ITER_RANDOM_ACCESS
deriving DecidableEq, Repr

/-- The numeric value of the C enum constant, used for the `>=` / `<`
comparisons the source performs on categories. -/
def tk_iter_category_t.toNat : tk_iter_category_t → Nat
  | .TK_ITER_FORWARD => 0
  | .TK_ITER_BIDIRECTIONAL => 1
  | .TK_ITER_RANDOM_ACCESS => 2

/-- `struct tk_list_node_t` from `ds/list.c`.  `data` is the C field
`void *data` split into the address of the payload block (`dataAddr`, kept
for allocation bookkeeping) and the payload value stored there (`data`). -/
structure tk_list_node_t (α : Type) where
  prev : Option Nat
  next : Option Nat
  dataAddr : Nat
  data : α
deriving DecidableEq

/-- `struct tk_list_t` from `ds/list.c` (the header object; nodes live in
the heap and are referenced by address). -/
structure tk_list_t where
  head : Option Nat
  tail : Option Nat
  size : Nat
  element_size : Nat
deriving DecidableEq, Repr

/-- The node heap: address of a live `tk_list_node_t` block to its value. -/
abbrev Heap (α : Type) := Nat → Option (tk_list_node_t α)

/-- `struct tk_vec_t` from `ds/vec.c`.  `stb_addr` is the address the
`char *stb_array` pointer holds; `content` abstracts the live bytes of the
stb_ds buffer, one entry per stored element, so that `arrlenu(stb_array)`
is `content.length * element_size`. -/
structure tk_vec_t (α : Type) where
  stb_addr : Nat
  content : List α
  element_size : Nat

/-- `arrlenu(vec->stb_array)`: byte length of the stb_ds array. -/
def arrlenu {α : Type} (v : tk_vec_t α) : Nat :=
  v.content.length * v.element_size

/-- Private state of a list iterator (`tk_list_iter_state_t`). -/
structure tk_list_iter_state_t where
  node : Option Nat
  list : Nat
deriving DecidableEq, Repr

/-- Private state of a vector iterator (`tk_vec_iter_state_t`). -/
structure tk_vec_iter_state_t where
  ptr : Nat
  element_size : Nat
deriving DecidableEq, Repr

/-- The 32-byte SBO state union of `tk_iterator_t`, viewed through the two
concrete layouts used by this library. -/
inductive IterState
  | listSt (s : tk_list_iter_state_t)
  | vecSt (s : tk_vec_iter_state_t)
deriving DecidableEq, Repr

/-- Addresses of the two static vtables of the library
(`g_list_vtable` in `ds/list.c`, `g_vec_vtable` in `ds/vec.c`). -/
inductive VTablePtr
  | listVt
  | vecVt
deriving DecidableEq, Repr

/-- `struct tk_iterator_t`: a nullable vtable pointer plus the inline
state buffer. -/
structure tk_iterator_t where
  vtable : Option VTablePtr
  state : IterState
deriving DecidableEq, Repr

/-- The mutable store threaded through every operation. -/
structure World (α : Type) where
  /-- live `tk_list_node_t` blocks, by address -/
  heap : Heap α
  /-- live `tk_list_t` header objects, by address -/
  lists : Nat → Option tk_list_t
  /-- contents of vector element slots, by address of the slot -/
  vecMem : Nat → Option α
  /-- oracle of future `malloc` outcomes (`true` = success); when the
  stream is exhausted every allocation succeeds -/
  allocOutcomes : List Bool
  /-- next fresh block address handed out by `malloc` -/
  nextAddr : Nat
  /-- addresses of currently allocated blocks -/
  allocated : List Nat

/-- `malloc`: consumes one outcome from the oracle; on success returns a
fresh address and records the block as allocated. -/
def malloc {α : Type} (w : World α) : Option Nat × World α :=
  match w.allocOutcomes with
  | [] =>
      (some w.nextAddr,
        { w with nextAddr := w.nextAddr + 1,
                 allocated := w.allocated ++ [w.nextAddr] })
  | ok :: rest =>
      if ok then
        (some w.nextAddr,
          { w with allocOutcomes := rest,
                   nextAddr := w.nextAddr + 1,
                   allocated := w.allocated ++ [w.nextAddr] })
      else
        (none, { w with allocOutcomes := rest })

/-- `free(a)`: the block stops being allocated. -/
def freeBlock {α : Type} (w : World α) (a : Nat) : World α :=
  { w with allocated := w.allocated.erase a }

/-- Pointwise heap update: apply `f` to the node stored at `i` (no-op when
the address is not live). -/
def updHeap {α : Type} (h : Heap α) (i : Nat) (f : tk_list_node_t α → tk_list_node_t α) :
    Heap α :=
  fun j => if j = i then (h j).map f else h j

/-- Remove the node block at `i` from the heap. -/
def delHeap {α : Type} (h : Heap α) (i : Nat) : Heap α :=
  fun j => if j = i then none else h j

/-- Update the list-header store at address `r0`. -/
def updLists (ls : Nat → Option tk_list_t) (r0 : Nat) (l : tk_list_t) :
    Nat → Option tk_list_t :=
  fun r => if r = r0 then some l else ls r

/-! ## List helper functions (`ds/list.c`) -/

/-- `tk_list_node_create` (list.c:61): malloc the node, then malloc the
payload block and copy the element into it; on payload-allocation failure
the node is freed again.  Returns the new node's address. -/
def tk_list_node_create {α : Type} (w : World α) (element : α) (element_size : Nat) :
    Option Nat × World α :=
  let _ := element_size   -- size of the payload malloc; sizes are abstract here
  match malloc w with
  | (none, w1) => (none, w1)
  | (some node, w1) =>
    match malloc w1 with
    | (none, w2) => (none, freeBlock w2 node)
    | (some dataAddr, w2) =>
        (some node,
          { w2 with heap := fun j =>
              if j = node then some ⟨none, none, dataAddr, element⟩ else w2.heap j })

/-- `tk_list_node_destroy` (list.c:87) with the NULL destroyer used by all
call sites embedded here: free the payload block, free the node block,
remove the node from the heap. -/
def tk_list_node_destroy {α : Type} (w : World α) (i : Nat) : World α :=
  match w.heap i with
  | none => w
  | some nd =>
      let w1 := freeBlock w nd.dataAddr
      let w2 := freeBlock w1 i
      { w2 with heap := delHeap w2.heap i }

/-! ## List queries (`ds/list.c`) -/

/-- `tk_list_size` (list.c:166): `list ? list->size : 0`. -/
def tk_list_size {α : Type} (w : World α) (lref : Nat) : Nat :=
  match w.lists lref with
  | some l => l.size
  | none => 0

/-- `tk_list_is_empty` (list.c:171): `list ? (list->size == 0) : true`. -/
def tk_list_is_empty {α : Type} (w : World α) (lref : Nat) : Bool :=
  match w.lists lref with
  | some l => decide (l.size = 0)
  | none => true

/-! ## List iterator vtable functions (`ds/list.c`) -/

/-- `tk_list_iter_advance` (list.c:396): follow `node->next`; already-at-end
iterators stay at end.  (Reading a node that is no longer live would be UB
in C; it is modelled as leaving the iterator unchanged.) -/
def tk_list_iter_advance {α : Type} (w : World α) (it : tk_iterator_t) : tk_iterator_t :=
  match it.state with
  | .listSt s =>
    match s.node with
    | some i =>
      match w.heap i with
      | some nd => { it with state := .listSt { s with node := nd.next } }
      | none => it
    | none => it
  | .vecSt _ => it   -- state buffer holds a different layout: UB in C

/-- `tk_list_iter_retreat` (list.c:408): from a node follow `node->prev`;
from the end iterator go to `list->tail`, staying at end when the list is
empty. -/
def tk_list_iter_retreat {α : Type} (w : World α) (it : tk_iterator_t) : tk_iterator_t :=
  match it.state with
  | .listSt s =>
    match s.node with
    | some i =>
      match w.heap i with
      | some nd => { it with state := .listSt { s with node := nd.prev } }
      | none => it
    | none =>
      match w.lists s.list with
      | some l =>
        match l.tail with
        | some t => { it with state := .listSt { s with node := some t } }
        | none => it
      | none => it   -- dangling list pointer: UB in C (TK_ASSERT fires)
  | .vecSt _ => it

/-- `tk_list_iter_get` (list.c:427): `state->node ? state->node->data : NULL`.
The C function returns the payload pointer; the model returns the payload
value stored there. -/
def tk_list_iter_get {α : Type} (w : World α) (it : tk_iterator_t) : Option α :=
  match it.state with
  | .listSt s =>
    match s.node with
    | some i =>
      match w.heap i with
      | some nd => some nd.data
      | none => none
    | none => none
  | .vecSt _ => none

/-- `tk_list_iter_equal` (list.c:439): same node (or both end) and same
owning list. -/
def tk_list_iter_equal (it1 it2 : tk_iterator_t) : Bool :=
  match it1.state, it2.state with
  | .listSt s1, .listSt s2 => decide (s1.node = s2.node) && decide (s1.list = s2.list)
  | _, _ => false   -- state buffers hold different layouts: UB in C

/-- `tk_list_iter_clone` (list.c:453): `*dest = *src`; returns the new
value of the destination. -/
def tk_list_iter_clone (dest src : tk_iterator_t) : tk_iterator_t :=
  let _ := dest
  src

/-! ## Vector functions (`ds/vec.c`) -/

/-- `tk_vec_size` (vec.c:77): `arrlenu(stb_array) / element_size`. -/
def tk_vec_size {α : Type} (v : tk_vec_t α) : Nat :=
  arrlenu v / v.element_size

/-- `tk_vec_is_empty` (vec.c:84): `tk_vec_size(vec) == 0`. -/
def tk_vec_is_empty {α : Type} (v : tk_vec_t α) : Bool :=
  decide (tk_vec_size v = 0)

/-- `tk_vec_iter_advance` (vec.c:192): `state->ptr += state->element_size`. -/
def tk_vec_iter_advance {α : Type} (w : World α) (it : tk_iterator_t) : tk_iterator_t :=
  let _ := w
  match it.state with
  | .vecSt s => { it with state := .vecSt { s with ptr := s.ptr + s.element_size } }
  | .listSt _ => it

/-- `tk_vec_iter_get` (vec.c:202): return the element stored at
`state->ptr`. -/
def tk_vec_iter_get {α : Type} (w : World α) (it : tk_iterator_t) : Option α :=
  match it.state with
  | .vecSt s => w.vecMem s.ptr
  | .listSt _ => none

/-- `tk_vec_iter_equal` (vec.c:213): `state1->ptr == state2->ptr`. -/
def tk_vec_iter_equal (it1 it2 : tk_iterator_t) : Bool :=
  match it1.state, it2.state with
  | .vecSt s1, .vecSt s2 => decide (s1.ptr = s2.ptr)
  | _, _ => false

/-- `tk_vec_iter_clone` (vec.c:229): `*dest = *src`. -/
def tk_vec_iter_clone (dest src : tk_iterator_t) : tk_iterator_t :=
  let _ := dest
  src

/-- Modelled from the spec: `tk_vec_iter_retreat` is referenced by
`g_vec_vtable` (vec.c:241, via `TK_DEFINE_ITERATOR_VTABLE` with category
`TK_ITER_RANDOM_ACCESS`) but its definition is not among the sources.
Per the spec's iterator protocol (§4.1, `prev(it)` "retreats one
position") it is the inverse of `tk_vec_iter_advance`:
`state->ptr -= state->element_size`. -/
def tk_vec_iter_retreat {α : Type} (w : World α) (it : tk_iterator_t) : tk_iterator_t :=
  let _ := w
  match it.state with
  | .vecSt s => { it with state := .vecSt { s with ptr := s.ptr - s.element_size } }
  | .listSt _ => it

/-! ## The vtable record and the two static vtables -/

/-- `tk_iterator_vtable_t` from `core/iterator.h`.  All function pointers
are nullable, as in C. -/
structure tk_iterator_vtable_t (α : Type) where
  category : tk_iter_category_t
  type_name : Option String
  advance : Option (World α → tk_iterator_t → tk_iterator_t)
  get : Option (World α → tk_iterator_t → Option α)
  equal : Option (tk_iterator_t → tk_iterator_t → Bool)
  clone : Option (tk_iterator_t → tk_iterator_t → tk_iterator_t)
  retreat : Option (World α → tk_iterator_t → tk_iterator_t)

/-- `TK_DEFINE_ITERATOR_VTABLE` (iterator.h:124): populate every field; the
`retreat` slot is filled exactly when `CATEGORY >= TK_ITER_BIDIRECTIONAL`. -/
def TK_DEFINE_ITERATOR_VTABLE {α : Type}
    (advance_fn : World α → tk_iterator_t → tk_iterator_t)
    (get_fn : World α → tk_iterator_t → Option α)
    (equal_fn : tk_iterator_t → tk_iterator_t → Bool)
    (clone_fn : tk_iterator_t → tk_iterator_t → tk_iterator_t)
    (retreat_fn : World α → tk_iterator_t → tk_iterator_t)
    (category : tk_iter_category_t)
    (type_name : String) : tk_iterator_vtable_t α :=
  { category := category
    type_name := some type_name
    advance := some advance_fn
    get := some get_fn
    equal := some equal_fn
    clone := some clone_fn
    retreat :=
      if tk_iter_category_t.TK_ITER_BIDIRECTIONAL.toNat ≤ category.toNat then
        some retreat_fn
      else none }

/-- `g_list_vtable` (list.c:462). -/
def g_list_vtable {α : Type} : tk_iterator_vtable_t α :=
  TK_DEFINE_ITERATOR_VTABLE
    tk_list_iter_advance tk_list_iter_get tk_list_iter_equal tk_list_iter_clone
    tk_list_iter_retreat .TK_ITER_BIDIRECTIONAL "tk_list_iterator"

/-- `g_vec_vtable` (vec.c:241). -/
def g_vec_vtable {α : Type} : tk_iterator_vtable_t α :=
  TK_DEFINE_ITERATOR_VTABLE
    tk_vec_iter_advance tk_vec_iter_get tk_vec_iter_equal tk_vec_iter_clone
    tk_vec_iter_retreat .TK_ITER_RANDOM_ACCESS "tk_vec_iterator"

/-- Dereference a (non-null) vtable pointer. -/
def vtDeref {α : Type} : VTablePtr → tk_iterator_vtable_t α
  | .listVt => g_list_vtable
  | .vecVt => g_vec_vtable

/-! ## Generic iterator operations (`core/iterator.h`) -/

/-- `tk_iterator_vtable_validate` (iterator.h:171): the conjunction of the
debug assertions (every mandatory pointer populated; `retreat` populated
whenever the category is at least bidirectional). -/
def tk_iterator_vtable_validate {α : Type} (vt : tk_iterator_vtable_t α) : Bool :=
  vt.advance.isSome && vt.get.isSome && vt.equal.isSome && vt.clone.isSome &&
  vt.type_name.isSome &&
  (decide (vt.category.toNat < tk_iter_category_t.TK_ITER_BIDIRECTIONAL.toNat) ||
    vt.retreat.isSome)

/-- `tk_iter_next` (iterator.h:189): `iter->vtable->advance(iter)`.
Calling through a null vtable or a null `advance` pointer is UB in C and
modelled as a no-op. -/
def tk_iter_next {α : Type} (w : World α) (it : tk_iterator_t) : tk_iterator_t :=
  match it.vtable with
  | some p =>
    match (vtDeref (α := α) p).advance with
    | some f => f w it
    | none => it
  | none => it

/-- `tk_iter_get` (iterator.h:199): `iter->vtable->get(iter)`. -/
def tk_iter_get {α : Type} (w : World α) (it : tk_iterator_t) : Option α :=
  match it.vtable with
  | some p =>
    match (vtDeref (α := α) p).get with
    | some f => f w it
    | none => none
  | none => none

/-- `tk_iter_equal` (iterator.h:210): equal vtable pointers, and the
per-type `equal` agrees.  (With two null vtables the C would call through
NULL; modelled as `false`.) -/
def tk_iter_equal {α : Type} (it1 it2 : tk_iterator_t) : Bool :=
  decide (it1.vtable = it2.vtable) &&
  (match it1.vtable with
   | some p =>
     match (vtDeref (α := α) p).equal with
     | some f => f it1 it2
     | none => false
   | none => false)

/-- `tk_iter_clone` (iterator.h:224): `src->vtable->clone(dest, src)`. -/
def tk_iter_clone {α : Type} (dest src : tk_iterator_t) : tk_iterator_t :=
  match src.vtable with
  | some p =>
    match (vtDeref (α := α) p).clone with
    | some f => f dest src
    | none => dest
  | none => dest

/-- `tk_iter_prev` (iterator.h:235): `iter->vtable->retreat(iter)` (the
category/non-null assertions are debug-only). -/
def tk_iter_prev {α : Type} (w : World α) (it : tk_iterator_t) : tk_iterator_t :=
  match it.vtable with
  | some p =>
    match (vtDeref (α := α) p).retreat with
    | some f => f w it
    | none => it
  | none => it

/-! ## List iterator constructors and mutators (`ds/list.c`) -/

/-- `tk_list_begin` (list.c:469): vtable `g_list_vtable`, node
`list->head`, back-reference to the list.  (With a dangling list pointer
the C would be UB; the node is then modelled as `none`.) -/
def tk_list_begin {α : Type} (w : World α) (lref : Nat) : tk_iterator_t :=
  match w.lists lref with
  | some l => ⟨some .listVt, .listSt ⟨l.head, lref⟩⟩
  | none => ⟨some .listVt, .listSt ⟨none, lref⟩⟩

/-- `tk_list_end` (list.c:487): vtable `g_list_vtable`, node `NULL`,
back-reference to the list.  It reads no field of the list. -/
def tk_list_end (lref : Nat) : tk_iterator_t :=
  ⟨some .listVt, .listSt ⟨none, lref⟩⟩

/-- The sentinel invalid iterator `{.vtable = NULL}` produced by
`tk_list_erase_at` on error (list.c:340): null vtable, zero-initialised
state bytes. -/
def sentinelIter : tk_iterator_t :=
  ⟨none, .listSt ⟨none, 0⟩⟩

/-- Result of `tk_list_get_node_from_iter`: either the distinct invalid
marker `(tk_list_node_t *)0xFFFFFFFF`, or the iterator's node pointer
(`none` for the end iterator). -/
inductive NodeFromIter
  | invalid
  | node (n : Option Nat)
deriving DecidableEq, Repr

/-- `tk_list_get_node_from_iter` (list.c:284): reject a null vtable, a
null or foreign `type_name`, and an iterator whose back-reference is not
this list; otherwise return the stored node pointer. -/
def tk_list_get_node_from_iter {α : Type} (lref : Nat) (iter : tk_iterator_t) :
    NodeFromIter :=
  match iter.vtable with
  | none => .invalid
  | some p =>
    match (vtDeref (α := α) p).type_name with
    | none => .invalid
    | some tn =>
      if tn ≠ "tk_list_iterator" then .invalid
      else
        match iter.state with
        | .listSt s => if s.list ≠ lref then .invalid else .node s.node
        | .vecSt _ => .invalid   -- reading the union through the wrong layout: UB in C

/-- `tk_list_push_back` (list.c:200). -/
def tk_list_push_back {α : Type} (w : World α) (lref : Nat) (element : α) :
    tk_error_t × World α :=
  match w.lists lref with
  | none => (TK_E_INVALID_ARG, w)
  | some l =>
    match tk_list_node_create w element l.element_size with
    | (none, w1) => (TK_E_NOMEM, w1)
    | (some n, w1) =>
      match l.tail with
      | some t =>
          let w2 := { w1 with heap := updHeap w1.heap t (fun tn => { tn with next := some n }) }
          let w3 := { w2 with heap := updHeap w2.heap n (fun nn => { nn with prev := some t }) }
          let l' := { l with tail := some n, size := l.size + 1 }
          (TK_SUCCESS, { w3 with lists := updLists w3.lists lref l' })
      | none =>
          let l' := { l with head := some n, tail := some n, size := l.size + 1 }
          (TK_SUCCESS, { w1 with lists := updLists w1.lists lref l' })

/-- `tk_list_push_front` (list.c:241). -/
def tk_list_push_front {α : Type} (w : World α) (lref : Nat) (element : α) :
    tk_error_t × World α :=
  match w.lists lref with
  | none => (TK_E_INVALID_ARG, w)
  | some l =>
    match tk_list_node_create w element l.element_size with
    | (none, w1) => (TK_E_NOMEM, w1)
    | (some n, w1) =>
      match l.head with
      | some h0 =>
          let w2 := { w1 with heap := updHeap w1.heap h0 (fun hn => { hn with prev := some n }) }
          let w3 := { w2 with heap := updHeap w2.heap n (fun nn => { nn with next := some h0 }) }
          let l' := { l with head := some n, size := l.size + 1 }
          (TK_SUCCESS, { w3 with lists := updLists w3.lists lref l' })
      | none =>
          let l' := { l with head := some n, tail := some n, size := l.size + 1 }
          (TK_SUCCESS, { w1 with lists := updLists w1.lists lref l' })

/-- `tk_list_insert_before` (list.c:299): validate the iterator, delegate
to `push_back` for the end iterator and to `push_front` when inserting
before the head, otherwise splice a fresh node before `before_node`. -/
def tk_list_insert_before {α : Type} (w : World α) (lref : Nat)
    (before_iter : tk_iterator_t) (element : α) : tk_error_t × World α :=
  match w.lists lref with
  | none => (TK_E_INVALID_ARG, w)
  | some l =>
    match tk_list_get_node_from_iter (α := α) lref before_iter with
    | .invalid => (TK_E_INVALID_ARG, w)
    | .node none => tk_list_push_back w lref element
    | .node (some bn) =>
      if l.head = some bn then tk_list_push_front w lref element
      else
        match tk_list_node_create w element l.element_size with
        | (none, w1) => (TK_E_NOMEM, w1)
        | (some n, w1) =>
          match w1.heap bn with
          | none => (TK_E_INVALID_ARG, w1)   -- dangling iterator: UB in C
          | some bnd =>
            let w2 := { w1 with heap := updHeap w1.heap n (fun nn => { nn with prev := bnd.prev, next := some bn }) }
            let w3 :=
              match bnd.prev with
              | some p => { w2 with heap := updHeap w2.heap p (fun pn => { pn with next := some n }) }
              | none => w2   -- cannot happen: the head case was handled above (TK_ASSERT)
            let w4 := { w3 with heap := updHeap w3.heap bn (fun bb => { bb with prev := some n }) }
            let l' := { l with size := l.size + 1 }
            (TK_SUCCESS, { w4 with lists := updLists w4.lists lref l' })

/-- `tk_list_erase_at` (list.c:338): validate, compute the successor
iterator before unlinking, unlink the node (updating `head`/`tail` at the
boundaries), destroy it, decrement the size. -/
def tk_list_erase_at {α : Type} (w : World α) (lref : Nat) (iter : tk_iterator_t) :
    tk_iterator_t × World α :=
  if tk_list_is_empty w lref then (sentinelIter, w)
  else
    match w.lists lref with
    | none => (sentinelIter, w)   -- unreachable: a null list is "empty" above
    | some l =>
      match tk_list_get_node_from_iter (α := α) lref iter with
      | .invalid => (sentinelIter, w)
      | .node none => (sentinelIter, w)   -- erasing end(): no-op
      | .node (some i) =>
        match w.heap i with
        | none => (sentinelIter, w)   -- dangling iterator: UB in C
        | some nd =>
          let next_iter : tk_iterator_t :=
            match nd.next with
            | some j => ⟨iter.vtable, .listSt ⟨some j, lref⟩⟩
            | none => tk_list_end lref
          let w1 :=
            match nd.prev with
            | some p => { w with heap := updHeap w.heap p (fun pn => { pn with next := nd.next }) }
            | none => w
          let l1 :=
            match nd.prev with
            | some _ => l
            | none => { l with head := nd.next }
          let w2 :=
            match nd.next with
            | some nx => { w1 with heap := updHeap w1.heap nx (fun xn => { xn with prev := nd.prev }) }
            | none => w1
          let l2 :=
            match nd.next with
            | some _ => l1
            | none => { l1 with tail := nd.prev }
          let w3 := tk_list_node_destroy w2 i
          let l3 := { l2 with size := l2.size - 1 }
          (next_iter, { w3 with lists := updLists w3.lists lref l3 })

/-! ## Vector iterator constructors (`ds/vec.c`) -/

/-- `tk_vec_begin` (vec.c:248): pointer to the first element. -/
def tk_vec_begin {α : Type} (v : tk_vec_t α) : tk_iterator_t :=
  ⟨some .vecVt, .vecSt ⟨v.stb_addr, v.element_size⟩⟩

/-- `tk_vec_end` (vec.c:267): pointer one past the last element,
`stb_array + tk_vec_size(vec) * element_size`. -/
def tk_vec_end {α : Type} (v : tk_vec_t α) : tk_iterator_t :=
  ⟨some .vecVt, .vecSt ⟨v.stb_addr + tk_vec_size v * v.element_size, v.element_size⟩⟩

/-- `tk_vec_destroy` (vec.c:66): `arrfree` releases the whole buffer. -/
def tk_vec_destroy {α : Type} (w : World α) (v : tk_vec_t α) : World α :=
  { w with vecMem := fun a =>
      if v.stb_addr ≤ a ∧ a < v.stb_addr + arrlenu v then none else w.vecMem a }

/-- Modelled from the spec: `tk_vec_destroy_full` is declared in
`include/tk/ds/vec.h` (vec.h:62) and exercised by the test suite, but its
definition is not among the sources.  Per the spec ("destroy_full invokes
destroyer on each live element first" and then "frees storage") it calls
the caller's destroyer once per live element, in storage order, and then
behaves like `tk_vec_destroy`.  The first component records the sequence
of elements the destroyer is invoked on. -/
def tk_vec_destroy_full {α : Type} (w : World α) (v : tk_vec_t α) :
    List α × World α :=
  (v.content, tk_vec_destroy w v)

/-! ## `tk_algo_find_if` (`algo/sequence.h`) -/

/-- `tk_algo_find_if` (sequence.h:43), with explicit fuel for the C `while`
loop; `none` means the loop did not finish within the fuel.  Dereferencing
an iterator that yields no element is UB in C and returns `none`. -/
def tk_algo_find_if {α : Type} (w : World α) :
    Nat → tk_iterator_t → tk_iterator_t → (α → Bool) → Option tk_iterator_t
  | 0, _, _, _ => none
  | fuel + 1, b, e, pred =>
    if tk_iter_equal (α := α) b e then some e
    else
      match tk_iter_get w b with
      | none => none
      | some x =>
        if pred x then some b
        else tk_algo_find_if w fuel (tk_iter_next w b) e pred

/-! ## Representation predicate for lists -/

/-- `Chain h p cur ids ds`: starting at node pointer `cur` whose node's
`prev` field must be `p`, the heap `h` contains the doubly-linked chain of
node addresses `ids` carrying payloads `ds`, ending with a `NULL` `next`. -/
inductive Chain {α : Type} (h : Heap α) : Option Nat → Option Nat → List Nat → List α → Prop
  | nil (p : Option Nat) : Chain h p none [] []
  | cons (p : Option Nat) (i : Nat) (nd : tk_list_node_t α) (ids : List Nat) (ds : List α)
      (hlook : h i = some nd) (hprev : nd.prev = p)
      (hrest : Chain h (some i) nd.next ids ds) :
      Chain h p (some i) (i :: ids) (nd.data :: ds)

/-- Well-formedness of a list header with respect to a heap: the chain
from `head` exists, `tail` is its last node, `size` is its length, and the
node addresses are pairwise distinct. -/
def ListWF {α : Type} (h : Heap α) (l : tk_list_t) (ids : List Nat) (ds : List α) : Prop :=
  Chain h none l.head ids ds ∧ l.tail = ids.getLast? ∧ l.size = ids.length ∧ ids.Nodup

/-- Forward traversal of the chain from a node pointer, with fuel;
abstraction of walking `node->next` from `list->head`. -/
def chase {α : Type} (h : Heap α) : Nat → Option Nat → List α
  | 0, _ => []
  | _ + 1, none => []
  | fuel + 1, some i =>
    match h i with
    | none => []
    | some nd => nd.data :: chase h fuel nd.next

/-- The element sequence of a list: the payloads reachable from `head` in
`size` steps of `next`. -/
def listToSeq {α : Type} (h : Heap α) (l : tk_list_t) : List α :=
  chase h l.size l.head

/-- The `prev` link the node directly after the segment `a` carries: the
last address of `a`, or `p` when `a` is empty. -/
def prevLink (a : List Nat) (p : Option Nat) : Option Nat :=
  match a.getLast? with
  | some x => some x
  | none => p

/-- An iterator fails the validation of `tk_list_get_node_from_iter`
against the list at `lref`: its dispatch table is not the list iterator
table, or its back-reference is a different list instance. -/
def ItMismatch (lref : Nat) (it : tk_iterator_t) : Prop :=
  it.vtable ≠ some VTablePtr.listVt ∨
  ∃ s, it.state = IterState.listSt s ∧ s.list ≠ lref

/-- The allocator makes `tk_list_node_create` fail: either the node
`malloc` fails, or it succeeds and the payload `malloc` fails. -/
def nodeCreateFails {α : Type} (w : World α) : Prop :=
  (∃ rest, w.allocOutcomes = false :: rest) ∨
  (∃ rest, w.allocOutcomes = true :: false :: rest)

/-- The heap, list store and set of allocated blocks are unchanged between
two worlds (the observable state of every list, in particular). -/
def ListStoreUnchanged {α : Type} (w w' : World α) : Prop :=
  w'.heap = w.heap ∧ w'.lists = w.lists ∧ w'.allocated = w.allocated

/-- `IsRange w e b ps`: iterating from `b` with `tk_iter_next` reaches `e`
(in the sense of `tk_iter_equal`) after visiting exactly the positions in
`ps`, each paired with the element `tk_iter_get` yields there. -/
inductive IsRange {α : Type} (w : World α) (e : tk_iterator_t) :
    tk_iterator_t → List (tk_iterator_t × α) → Prop
  | done (b : tk_iterator_t) (heq : tk_iter_equal (α := α) b e = true) :
      IsRange w e b []
  | step (b : tk_iterator_t) (x : α) (ps : List (tk_iterator_t × α))
      (hne : tk_iter_equal (α := α) b e = false)
      (hget : tk_iter_get w b = some x)
      (hrest : IsRange w e (tk_iter_next w b) ps) :
      IsRange w e b ((b, x) :: ps)

/-! ## Concrete sample data for the witnesses -/

/-- Sample heap: nodes 1, 2, 3 carrying 10, 20, 30 (payload blocks
11, 12, 13), doubly linked in that order. -/
def sampleHeap : Heap Nat := fun j =>
  if j = 1 then some ⟨none, some 2, 11, 10⟩
  else if j = 2 then some ⟨some 1, some 3, 12, 20⟩
  else if j = 3 then some ⟨some 2, none, 13, 30⟩
  else none

/-- Sample list header for the chain 1 ↔ 2 ↔ 3. -/
def sampleList : tk_list_t := ⟨some 1, some 3, 3, 4⟩

/-- An empty list header. -/
def emptyList : tk_list_t := ⟨none, none, 0, 4⟩

/-- A sample vector holding `[5, 7]` at address 0 with 4-byte elements. -/
def sampleVec : tk_vec_t Nat := ⟨0, [5, 7], 4⟩

/-- Sample world: the three-element list lives at address 100, an empty
list at address 200, and the sample vector's buffer at addresses 0 and 4. -/
def sampleW : World Nat :=
  { heap := sampleHeap
    lists := fun r =>
      if r = 100 then some sampleList
      else if r = 200 then some emptyList
      else none
    vecMem := fun a => if a = 0 then some 5 else if a = 4 then some 7 else none
    allocOutcomes := []
    nextAddr := 50
    allocated := [1, 11, 2, 12, 3, 13] }

/-- `sampleW` with an allocator that fails the next request. -/
def sampleWFail : World Nat := { sampleW with allocOutcomes := [false] }

/-- A vector iterator, used as an iterator that mismatches every list. -/
def badIt : tk_iterator_t := ⟨some .vecVt, .vecSt ⟨0, 4⟩⟩

/-! ## Chain lemmas -/

theorem chain_head {α : Type} {h : Heap α} {p cur ids ds}
    (hc : Chain h p cur ids ds) : cur = ids.head? := by
  cases hc <;> rfl

theorem chain_length {α : Type} {h : Heap α} {p cur ids ds}
    (hc : Chain h p cur ids ds) : ids.length = ds.length := by
  induction hc with
  | nil => rfl
  | cons _ _ _ _ _ _ _ _ ih => simpa using ih

theorem chain_chase {α : Type} {h : Heap α} {p cur ids ds}
    (hc : Chain h p cur ids ds) :
    ∀ fuel, ids.length ≤ fuel → chase h fuel cur = ds := by
  induction hc with
  | nil =>
    intro fuel _
    cases fuel <;> rfl
  | cons p i nd ids ds hlook _ _ ih =>
    intro fuel hfuel
    cases fuel with
    | zero => simp at hfuel
    | succ f =>
      simp only [chase, hlook]
      exact congrArg (nd.data :: ·) (ih f (by simpa using hfuel))

theorem chain_copy {α : Type} {h : Heap α} {p cur ids ds}
    (hc : Chain h p cur ids ds) (h' : Heap α)
    (hsame : ∀ j ∈ ids, h' j = h j) : Chain h' p cur ids ds := by
  induction hc with
  | nil => exact Chain.nil _
  | cons p i nd ids ds hlook hprev _ ih =>
    exact Chain.cons p i nd ids ds
      (by rw [hsame i (by simp)]; exact hlook) hprev
      (ih fun j hj => hsame j (by simp [hj]))

theorem chain_extract {α : Type} {h : Heap α} :
    ∀ (a : List Nat) (p cur : Option Nat) (da : List α) {i : Nat} {b : List Nat}
      {d : α} {db : List α},
      Chain h p cur (a ++ i :: b) (da ++ d :: db) → da.length = a.length →
      ∃ nd, h i = some nd ∧ nd.prev = prevLink a p ∧ nd.next = b.head? ∧
        nd.data = d ∧ Chain h (some i) b.head? b db := by
  intro a
  induction a with
  | nil =>
    intro p cur da i b d db hc hlen
    have hda : da = [] := List.length_eq_zero.mp hlen
    subst hda
    simp only [List.nil_append] at hc
    cases hc with
    | cons _ _ nd _ _ hlook hprev hrest =>
      have hnext : nd.next = b.head? := chain_head hrest
      exact ⟨nd, hlook, by simpa [prevLink] using hprev, hnext, rfl,
        hnext ▸ hrest⟩
  | cons x a' ih =>
    intro p cur da i b d db hc hlen
    cases da with
    | nil => simp at hlen
    | cons dx da' =>
      simp only [List.cons_append] at hc
      cases hc with
      | cons _ _ xnd _ _ hlook hprev hrest =>
        obtain ⟨nd, h1, h2, h3, h4, h5⟩ :=
          ih (some x) xnd.next da' hrest (by simpa using hlen)
        refine ⟨nd, h1, ?_, h3, h4, h5⟩
        rw [h2]
        cases a' with
        | nil => simp [prevLink]
        | cons y a'' =>
          simp only [prevLink, List.getLast?_cons_cons]
          cases hgl : (y :: a'').getLast? with
          | none => exact absurd (List.getLast?_eq_none_iff.mp hgl) (by simp)
          | some z => rfl

/-- Updating the `prev` field of the first node of a chain (and leaving the
rest untouched) re-roots the chain at the new predecessor. -/
theorem chain_tail_upd {α : Type} {h : Heap α} (h' : Heap α)
    {q bh : Option Nat} (pl : Option Nat) {b : List Nat} {db : List α}
    (hc : Chain h q bh b db)
    (hndb : b.Nodup)
    (hbh : ∀ j, bh = some j → h' j = (h j).map (fun nd0 => { nd0 with prev := pl }))
    (hrest : ∀ j ∈ b, some j ≠ bh → h' j = h j) :
    Chain h' pl bh b db := by
  cases hc with
  | nil => exact Chain.nil _
  | cons _ j nd b' db' hlook hprev hrestc =>
    have hj : h' j = some { nd with prev := pl } := by
      rw [hbh j rfl, hlook]; rfl
    refine Chain.cons pl j { nd with prev := pl } b' db' hj rfl ?_
    exact chain_copy hrestc h' fun k hk =>
      hrest k (by simp [hk]) (by
        simp only [List.nodup_cons] at hndb
        intro hkj
        injection hkj with hkj'
        exact hndb.1 (hkj' ▸ hk))

/-- The central unlinking lemma: removing the node `i` from a chain
`a ++ i :: b`, after redirecting the `next` of the last node of `a` to the
head of `b` and the `prev` of the head of `b` to the last node of `a`,
yields the chain `a ++ b`. -/
theorem chain_erase_main {α : Type} {h : Heap α} (h' : Heap α) {i : Nat}
    {bh pl : Option Nat} {b : List Nat} {db : List α}
    (hb : Chain h (some i) bh b db)
    (hbh_upd : ∀ j, bh = some j → h' j = (h j).map (fun nd0 => { nd0 with prev := pl }))
    (hpl_upd : ∀ j, pl = some j → h' j = (h j).map (fun nd0 => { nd0 with next := bh }))
    (hother : ∀ j, j ≠ i → some j ≠ bh → some j ≠ pl → h' j = h j)
    (hndb : b.Nodup) (hib : i ∉ b) (hplb : ∀ j ∈ b, some j ≠ pl) :
    ∀ (a : List Nat) (p cur : Option Nat) (da : List α) {d : α},
      Chain h p cur (a ++ i :: b) (da ++ d :: db) → da.length = a.length →
      prevLink a p = pl → a.Nodup → i ∉ a → (∀ x ∈ a, x ∉ b) →
      Chain h' p ((a ++ b).head?) (a ++ b) (da ++ db) := by
  have hbh : bh = b.head? := chain_head hb
  intro a
  induction a with
  | nil =>
    intro p cur da d hc hlen hpl _ _ _
    have hda : da = [] := List.length_eq_zero.mp hlen
    subst hda
    have hp : p = pl := by simpa [prevLink] using hpl
    simp only [List.nil_append]
    rw [← hbh, hp]
    refine chain_tail_upd h' pl hb hndb hbh_upd ?_
    intro j hj hjbh
    refine hother j (fun hji => hib (hji ▸ hj)) hjbh ?_
    exact hplb j hj
  | cons x a' ih =>
    intro p cur da d hc hlen hpl hnda hia hab
    cases da with
    | nil => simp at hlen
    | cons dx da' =>
      simp only [List.cons_append] at hc
      cases hc with
      | cons _ _ xnd _ _ hlook hprev hrestc =>
        simp only [List.nodup_cons] at hnda
        have hxa' : x ∉ a' := hnda.1
        have hxi : x ≠ i := fun hxe => hia (by simp [hxe])
        have hxb : x ∉ b := hab x (by simp)
        -- The updated record at x and the next pointer it carries.
        have hpl' : prevLink a' (some x) = pl := by
          cases a' with
          | nil => simpa [prevLink] using hpl
          | cons y a'' => simpa [prevLink, List.getLast?_cons_cons] using hpl
        have hxrec : h' x = some { xnd with next := (a' ++ b).head? } := by
          cases a' with
          | nil =>
            have hxpl : pl = some x := by
              have h0 : some x = pl := by simpa [prevLink] using hpl
              exact h0.symm
            rw [hpl_upd x hxpl, hlook, hbh]
            rfl
          | cons y a'' =>
            have hxpl2 : some x ≠ pl := by
              rw [← hpl']
              simp only [prevLink, List.getLast?_cons_cons]
              cases hgl : (y :: a'').getLast? with
              | none => exact absurd (List.getLast?_eq_none_iff.mp hgl) (by simp)
              | some z =>
                simp only [ne_eq, Option.some.injEq]
                intro hxz
                exact hxa' (by rw [hxz]; exact List.mem_of_getLast?_eq_some hgl)
            have hxbh : some x ≠ bh := by
              rw [hbh]
              cases b with
              | nil => simp
              | cons z b' =>
                simp only [List.head?_cons, ne_eq, Option.some.injEq]
                intro hxz
                exact hxb (by simp [hxz])
            rw [hother x hxi hxbh hxpl2, hlook]
            have hnx : xnd.next = ((y :: a'') ++ i :: b).head? := chain_head hrestc
            simp only [List.cons_append, List.head?_cons] at hnx
            simp only [List.cons_append, List.head?_cons]
            rw [← hnx]
        refine ?_
        simp only [List.cons_append, List.head?_cons]
        refine Chain.cons p x { xnd with next := (a' ++ b).head? } (a' ++ b)
          (da' ++ db) hxrec hprev ?_
        have := ih (some x) xnd.next da' hrestc (by simpa using hlen) hpl'
          hnda.2 (fun hi' => hia (by simp [hi'])) (fun z hz => hab z (by simp [hz]))
        simpa using this

/-! ## Facts about the sample data -/

theorem sampleChain :
    Chain sampleHeap none (some 1) [1, 2, 3] [10, 20, 30] := by
  refine Chain.cons none 1 ⟨none, some 2, 11, 10⟩ [2, 3] [20, 30] rfl rfl ?_
  refine Chain.cons (some 1) 2 ⟨some 1, some 3, 12, 20⟩ [3] [30] rfl rfl ?_
  refine Chain.cons (some 2) 3 ⟨some 2, none, 13, 30⟩ [] [] rfl rfl ?_
  exact Chain.nil _

theorem sampleWF : ListWF sampleW.heap sampleList [1, 2, 3] [10, 20, 30] :=
  ⟨sampleChain, rfl, rfl, by decide⟩

theorem emptyWF : ListWF sampleW.heap emptyList [] [] :=
  ⟨Chain.nil _, rfl, rfl, List.nodup_nil⟩

/-! ## Iterator validation -/

/-- A mismatching iterator is rejected by `tk_list_get_node_from_iter`. -/
theorem mismatch_get_node {α : Type} (lref : Nat) (it : tk_iterator_t)
    (h : ItMismatch lref it) :
    tk_list_get_node_from_iter (α := α) lref it = .invalid := by
  unfold tk_list_get_node_from_iter
  cases hvt : it.vtable with
  | none => rfl
  | some p =>
    cases p with
    | vecVt =>
      simp only [vtDeref, g_vec_vtable, TK_DEFINE_ITERATOR_VTABLE]
      rw [if_pos (show ("tk_vec_iterator" : String) ≠ "tk_list_iterator" by decide)]
    | listVt =>
      simp only [vtDeref, g_list_vtable, TK_DEFINE_ITERATOR_VTABLE]
      rw [if_neg (show ¬ ("tk_list_iterator" : String) ≠ "tk_list_iterator" by decide)]
      cases hst : it.state with
      | vecSt s => rfl
      | listSt s =>
        cases h with
        | inl h1 => exact absurd hvt h1
        | inr h2 =>
          obtain ⟨s', hs', hne⟩ := h2
          rw [hst] at hs'
          injection hs' with hss
          have hne' : s.list ≠ lref := by rw [hss]; exact hne
          simp [hne']

/-- C10: advancing a LIST iterator already at the past-the-end position
(node pointer null) leaves it exactly at the past-the-end position, for
every world — hence for every list, including the empty one; the null
node pointer is never dereferenced. -/
theorem c10_advance_at_end_saturates {α : Type} (w : World α)
    (it : tk_iterator_t) (r : Nat)
    (hvt : it.vtable = some .listVt)
    (hst : it.state = .listSt ⟨none, r⟩) :
    tk_iter_next w it = it := by
  simp [tk_iter_next, hvt, vtDeref, g_list_vtable, TK_DEFINE_ITERATOR_VTABLE,
    tk_list_iter_advance, hst]

theorem c10_witness :
    (tk_list_end 100).vtable = some VTablePtr.listVt ∧
    (tk_list_end 100).state = IterState.listSt ⟨none, 100⟩ ∧
    tk_iter_next sampleW (tk_list_end 100) = tk_list_end 100 :=
  ⟨rfl, rfl, c10_advance_at_end_saturates sampleW (tk_list_end 100) 100 rfl rfl⟩

/-- C5: every vtable built by `TK_DEFINE_ITERATOR_VTABLE` whose declared
category is bidirectional or random-access has its `retreat` slot
populated; in particular `g_vec_vtable` declares random-access iterators,
carries `tk_vec_iter_retreat` in its `retreat` slot, and passes the
debug-time vtable validation. -/
theorem c5_retreat_populated (α : Type) :
    (∀ (adv : World α → tk_iterator_t → tk_iterator_t)
       (g : World α → tk_iterator_t → Option α)
       (eqf : tk_iterator_t → tk_iterator_t → Bool)
       (cl : tk_iterator_t → tk_iterator_t → tk_iterator_t)
       (rt : World α → tk_iterator_t → tk_iterator_t)
       (cat : tk_iter_category_t) (tn : String),
       tk_iter_category_t.TK_ITER_BIDIRECTIONAL.toNat ≤ cat.toNat →
       (TK_DEFINE_ITERATOR_VTABLE adv g eqf cl rt cat tn).retreat.isSome = true) ∧
    (g_vec_vtable (α := α)).category = .TK_ITER_RANDOM_ACCESS ∧
    (g_vec_vtable (α := α)).retreat = some tk_vec_iter_retreat ∧
    tk_iterator_vtable_validate (g_vec_vtable (α := α)) = true := by
  refine ⟨?_, rfl, rfl, rfl⟩
  intro adv g eqf cl rt cat tn hcat
  simp [TK_DEFINE_ITERATOR_VTABLE, hcat]

theorem c5_witness :
    tk_iter_category_t.TK_ITER_BIDIRECTIONAL.toNat ≤
      tk_iter_category_t.TK_ITER_RANDOM_ACCESS.toNat ∧
    (TK_DEFINE_ITERATOR_VTABLE (α := Nat) tk_vec_iter_advance tk_vec_iter_get
      tk_vec_iter_equal tk_vec_iter_clone tk_vec_iter_retreat
      .TK_ITER_RANDOM_ACCESS "tk_vec_iterator").retreat.isSome = true ∧
    tk_iterator_vtable_validate (g_vec_vtable (α := Nat)) = true :=
  ⟨by decide,
   (c5_retreat_populated Nat).1 tk_vec_iter_advance tk_vec_iter_get
     tk_vec_iter_equal tk_vec_iter_clone tk_vec_iter_retreat
     .TK_ITER_RANDOM_ACCESS "tk_vec_iterator" (by decide),
   (c5_retreat_populated Nat).2.2.2⟩

/-- C4: an iterator whose dispatch table is not the list iterator table,
or whose back-reference is a different list instance, makes
`tk_list_insert_before` return `TK_E_INVALID_ARG` with the world (hence
the list) unchanged and makes `tk_list_erase_at` return the sentinel
invalid iterator (null dispatch table) with the world unchanged; erasing
the past-the-end iterator is a no-op returning the sentinel. -/
theorem c4_iterator_validation {α : Type} (w : World α) (lref : Nat)
    (it : tk_iterator_t) (e : α) (hmis : ItMismatch lref it) :
    tk_list_insert_before w lref it e = (TK_E_INVALID_ARG, w) ∧
    tk_list_erase_at w lref it = (sentinelIter, w) ∧
    tk_list_erase_at w lref (tk_list_end lref) = (sentinelIter, w) := by
  have hinv := mismatch_get_node (α := α) lref it hmis
  have hend : tk_list_get_node_from_iter (α := α) lref (tk_list_end lref) =
      .node none := by
    simp [tk_list_get_node_from_iter, tk_list_end, vtDeref, g_list_vtable,
      TK_DEFINE_ITERATOR_VTABLE]
  refine ⟨?_, ?_, ?_⟩
  · unfold tk_list_insert_before
    cases hls : w.lists lref with
    | none => rfl
    | some l => rw [hinv]
  · unfold tk_list_erase_at
    by_cases he : tk_list_is_empty w lref
    · simp [he]
    · simp only [he, if_false, Bool.false_eq_true]
      cases hls : w.lists lref with
      | none => rfl
      | some l => rw [hinv]
  · unfold tk_list_erase_at
    by_cases he : tk_list_is_empty w lref
    · simp [he]
    · simp only [he, if_false, Bool.false_eq_true]
      cases hls : w.lists lref with
      | none => rfl
      | some l => rw [hend]

theorem c4_witness :
    ItMismatch 100 badIt ∧
    tk_list_insert_before sampleW 100 badIt 7 = (TK_E_INVALID_ARG, sampleW) ∧
    tk_list_erase_at sampleW 100 badIt = (sentinelIter, sampleW) ∧
    tk_list_erase_at sampleW 100 (tk_list_end 100) = (sentinelIter, sampleW) :=
  ⟨Or.inl (by decide),
   (c4_iterator_validation sampleW 100 badIt 7 (Or.inl (by decide))).1,
   (c4_iterator_validation sampleW 100 badIt 7 (Or.inl (by decide))).2.1,
   (c4_iterator_validation sampleW 100 badIt 7 (Or.inl (by decide))).2.2⟩

/-- C8: for a vector (with the positive element size every created vector
has) and for a well-formed list, emptiness, zero size and
`begin == end` under `tk_iter_equal` are all equivalent. -/
theorem c8_empty_iff {α : Type} (w : World α) (v : tk_vec_t α) (lref : Nat)
    (l : tk_list_t) (ids : List Nat) (ds : List α)
    (hesz : 0 < v.element_size) (hl : w.lists lref = some l)
    (hwf : ListWF w.heap l ids ds) :
    ((tk_vec_is_empty v = true ↔ tk_vec_size v = 0) ∧
     (tk_vec_size v = 0 ↔
       tk_iter_equal (α := α) (tk_vec_begin v) (tk_vec_end v) = true)) ∧
    ((tk_list_is_empty w lref = true ↔ tk_list_size w lref = 0) ∧
     (tk_list_size w lref = 0 ↔
       tk_iter_equal (α := α) (tk_list_begin w lref) (tk_list_end lref) = true)) := by
  obtain ⟨hc, htail, hsize, hnd⟩ := hwf
  constructor
  · constructor
    · simp [tk_vec_is_empty]
    · unfold tk_iter_equal tk_vec_begin tk_vec_end
      simp only [vtDeref, g_vec_vtable, TK_DEFINE_ITERATOR_VTABLE,
        tk_vec_iter_equal, decide_eq_true_eq, Bool.and_eq_true]
      constructor
      · intro h0
        simp [h0]
      · rintro ⟨-, h2⟩
        have : tk_vec_size v * v.element_size = 0 := by omega
        rcases Nat.mul_eq_zero.mp this with h | h
        · exact h
        · omega
  · have hhead : l.head = ids.head? := chain_head hc
    constructor
    · simp [tk_list_is_empty, tk_list_size, hl]
    · unfold tk_iter_equal tk_list_begin tk_list_end
      simp only [hl, tk_list_size, vtDeref, g_list_vtable,
        TK_DEFINE_ITERATOR_VTABLE, tk_list_iter_equal, decide_eq_true_eq,
        Bool.and_eq_true]
      rw [hsize, hhead]
      cases ids <;> simp

theorem c8_witness :
    0 < sampleVec.element_size ∧
    sampleW.lists 100 = some sampleList ∧
    ((tk_vec_is_empty sampleVec = true ↔ tk_vec_size sampleVec = 0) ∧
     (tk_vec_size sampleVec = 0 ↔
       tk_iter_equal (α := Nat) (tk_vec_begin sampleVec) (tk_vec_end sampleVec) = true)) ∧
    ((tk_list_is_empty sampleW 100 = true ↔ tk_list_size sampleW 100 = 0) ∧
     (tk_list_size sampleW 100 = 0 ↔
       tk_iter_equal (α := Nat) (tk_list_begin sampleW 100) (tk_list_end 100) = true)) :=
  ⟨by decide, rfl,
   (c8_empty_iff sampleW sampleVec 100 sampleList [1, 2, 3] [10, 20, 30]
      (by decide) rfl sampleWF).1,
   (c8_empty_iff sampleW sampleVec 100 sampleList [1, 2, 3] [10, 20, 30]
      (by decide) rfl sampleWF).2⟩

/-- C6: `tk_vec_destroy_full` invokes the caller's destroyer once on each
live element, in storage order, and then frees the vector's storage. -/
theorem c6_destroy_full_spec {α : Type} (w : World α) (v : tk_vec_t α)
    (hesz : 0 < v.element_size) :
    (tk_vec_destroy_full w v).1 = v.content ∧
    (tk_vec_destroy_full w v).1.length = tk_vec_size v ∧
    (∀ a, v.stb_addr ≤ a → a < v.stb_addr + arrlenu v →
      ((tk_vec_destroy_full w v).2).vecMem a = none) := by
  refine ⟨rfl, ?_, ?_⟩
  · simp [tk_vec_destroy_full, tk_vec_size, arrlenu, Nat.mul_div_cancel _ hesz]
  · intro a h1 h2
    simp [tk_vec_destroy_full, tk_vec_destroy, h1, h2]

theorem c6_witness :
    0 < sampleVec.element_size ∧
    (tk_vec_destroy_full sampleW sampleVec).1 = [5, 7] ∧
    (tk_vec_destroy_full sampleW sampleVec).1.length = tk_vec_size sampleVec :=
  ⟨by decide,
   (c6_destroy_full_spec sampleW sampleVec (by decide)).1,
   (c6_destroy_full_spec sampleW sampleVec (by decide)).2.1⟩

/-- C7: over any range `[b, e)` described by `IsRange`, `tk_algo_find_if`
returns the first position whose element satisfies the predicate, and `e`
when none does; on an empty range (`b == e`) it returns `e` and its result
does not depend on the predicate at all (the predicate is not invoked). -/
theorem c7_find_if_spec {α : Type} (w : World α) (e b : tk_iterator_t)
    (ps : List (tk_iterator_t × α)) (pred : α → Bool)
    (hr : IsRange w e b ps) :
    (∀ fuel, ps.length < fuel →
      tk_algo_find_if w fuel b e pred =
        some (match ps.find? (fun q => pred q.2) with
              | some q => q.1
              | none => e)) ∧
    (tk_iter_equal (α := α) b e = true →
      ∀ (p1 p2 : α → Bool) fuel,
        tk_algo_find_if w fuel b e p1 = tk_algo_find_if w fuel b e p2) := by
  constructor
  · induction hr with
    | done b heq =>
      intro fuel hfuel
      cases fuel with
      | zero => omega
      | succ f => simp [tk_algo_find_if, heq]
    | step b x ps hne hget hrest ih =>
      intro fuel hfuel
      cases fuel with
      | zero => omega
      | succ f =>
        simp only [tk_algo_find_if, hne, Bool.false_eq_true, if_false, hget]
        by_cases hp : pred x
        · simp [hp, List.find?_cons_of_pos _ (by simpa using hp)]
        · rw [if_neg hp, List.find?_cons_of_neg _ (by simpa using hp)]
          exact ih f (by simpa using hfuel)
  · intro heq p1 p2 fuel
    cases fuel with
    | zero => rfl
    | succ f => simp [tk_algo_find_if, heq]

theorem c7_witness :
    IsRange sampleW (tk_list_end 100) (tk_list_begin sampleW 100)
      [(⟨some .listVt, .listSt ⟨some 1, 100⟩⟩, 10),
       (⟨some .listVt, .listSt ⟨some 2, 100⟩⟩, 20),
       (⟨some .listVt, .listSt ⟨some 3, 100⟩⟩, 30)] ∧
    tk_algo_find_if sampleW 4 (tk_list_begin sampleW 100) (tk_list_end 100)
      (fun x => decide (x = 20)) =
      some ⟨some .listVt, .listSt ⟨some 2, 100⟩⟩ := by
  have hr : IsRange sampleW (tk_list_end 100) (tk_list_begin sampleW 100)
      [(⟨some .listVt, .listSt ⟨some 1, 100⟩⟩, 10),
       (⟨some .listVt, .listSt ⟨some 2, 100⟩⟩, 20),
       (⟨some .listVt, .listSt ⟨some 3, 100⟩⟩, 30)] := by
    refine IsRange.step _ _ _ rfl rfl ?_
    refine IsRange.step _ _ _ rfl rfl ?_
    refine IsRange.step _ _ _ rfl rfl ?_
    exact IsRange.done _ rfl
  exact ⟨hr,
    (c7_find_if_spec sampleW (tk_list_end 100) (tk_list_begin sampleW 100) _
      (fun x => decide (x = 20)) hr).1 4 (by decide)⟩

/-- C3: applying `prev` to the past-the-end iterator of a well-formed list
yields an iterator to the tail node (whose `get` is the last element) when
the list is non-empty, and yields the past-the-end iterator again — still
equal to both `begin` and `end` — when the list is empty. -/
theorem c3_retreat_from_end {α : Type} (w : World α) (lref : Nat)
    (l : tk_list_t) (ids : List Nat) (ds : List α)
    (hl : w.lists lref = some l) (hwf : ListWF w.heap l ids ds) :
    (ids = [] →
      tk_iter_prev w (tk_list_end lref) = tk_list_end lref ∧
      tk_iter_equal (α := α) (tk_iter_prev w (tk_list_end lref))
        (tk_list_begin w lref) = true ∧
      tk_iter_equal (α := α) (tk_iter_prev w (tk_list_end lref))
        (tk_list_end lref) = true) ∧
    (ids ≠ [] → ∃ t,
      l.tail = some t ∧
      tk_iter_prev w (tk_list_end lref) =
        ⟨some .listVt, .listSt ⟨some t, lref⟩⟩ ∧
      tk_iter_get w (tk_iter_prev w (tk_list_end lref)) = ds.getLast?) := by
  obtain ⟨hc, htail, hsize, hnd⟩ := hwf
  have hhead : l.head = ids.head? := chain_head hc
  constructor
  · intro hids
    subst hids
    have ht0 : l.tail = none := by simpa using htail
    have hprev : tk_iter_prev w (tk_list_end lref) = tk_list_end lref := by
      simp [tk_iter_prev, tk_list_end, vtDeref, g_list_vtable,
        TK_DEFINE_ITERATOR_VTABLE, tk_list_iter_retreat, hl, ht0]
    refine ⟨hprev, ?_, ?_⟩
    · rw [hprev]
      simp only [List.head?_nil] at hhead
      simp [tk_iter_equal, tk_list_begin, tk_list_end, hl, hhead, vtDeref,
        g_list_vtable, TK_DEFINE_ITERATOR_VTABLE, tk_list_iter_equal]
    · rw [hprev]
      simp [tk_iter_equal, tk_list_end, vtDeref, g_list_vtable,
        TK_DEFINE_ITERATOR_VTABLE, tk_list_iter_equal]
  · intro hids
    have hgl : ids.getLast? = some (ids.getLast hids) :=
      List.getLast?_eq_getLast_of_ne_nil hids
    set t := ids.getLast hids with htdef
    have ht : l.tail = some t := by rw [htail, hgl]
    have hprev : tk_iter_prev w (tk_list_end lref) =
        ⟨some .listVt, .listSt ⟨some t, lref⟩⟩ := by
      simp [tk_iter_prev, tk_list_end, vtDeref, g_list_vtable,
        TK_DEFINE_ITERATOR_VTABLE, tk_list_iter_retreat, hl, ht]
    -- the last node's record via `chain_extract` on `dropLast ids ++ [t]`
    have hds_ne : ds ≠ [] := by
      intro h0
      have := chain_length hc
      rw [h0] at this
      simp at this
      exact hids this
    have hgl_ds : ds.getLast? = some (ds.getLast hds_ne) :=
      List.getLast?_eq_getLast_of_ne_nil hds_ne
    have hids_split : ids.dropLast ++ [t] = ids :=
      List.dropLast_append_getLast? t (by simp [hgl])
    have hds_split : ds.dropLast ++ [ds.getLast hds_ne] = ds :=
      List.dropLast_append_getLast? _ (by simp [hgl_ds])
    have hlen : ds.dropLast.length = ids.dropLast.length := by
      have := chain_length hc
      simp [List.length_dropLast, this]
    obtain ⟨nd, hlook, -, -, hdata, -⟩ :=
      chain_extract ids.dropLast none l.head ds.dropLast
        (by rw [show ids.dropLast ++ t :: [] = ids from hids_split,
                show ds.dropLast ++ ds.getLast hds_ne :: [] = ds from hds_split]
            exact hc)
        hlen
    refine ⟨t, ht, hprev, ?_⟩
    rw [hprev]
    simp [tk_iter_get, vtDeref, g_list_vtable, TK_DEFINE_ITERATOR_VTABLE,
      tk_list_iter_get, hlook, hdata, hgl_ds]

theorem c3_witness :
    sampleW.lists 100 = some sampleList ∧
    sampleW.lists 200 = some emptyList ∧
    (∃ t, sampleList.tail = some t ∧
      tk_iter_prev sampleW (tk_list_end 100) =
        ⟨some .listVt, .listSt ⟨some t, 100⟩⟩ ∧
      tk_iter_get sampleW (tk_iter_prev sampleW (tk_list_end 100)) =
        ([10, 20, 30] : List Nat).getLast?) ∧
    (tk_iter_prev sampleW (tk_list_end 200) = tk_list_end 200 ∧
      tk_iter_equal (α := Nat) (tk_iter_prev sampleW (tk_list_end 200))
        (tk_list_begin sampleW 200) = true ∧
      tk_iter_equal (α := Nat) (tk_iter_prev sampleW (tk_list_end 200))
        (tk_list_end 200) = true) :=
  ⟨rfl, rfl,
   (c3_retreat_from_end sampleW 100 sampleList [1, 2, 3] [10, 20, 30]
      rfl sampleWF).2 (by decide),
   (c3_retreat_from_end sampleW 200 emptyList [] [] rfl emptyWF).1 rfl⟩

/-- C2: inserting before the past-the-end iterator is exactly
`tk_list_push_back` (same return code, same resulting world, hence the
same resulting element sequence), and inserting before the begin iterator
produces the same result as `tk_list_push_front`. -/
theorem c2_insert_before_end_begin {α : Type} (w : World α) (lref : Nat)
    (l : tk_list_t) (ids : List Nat) (ds : List α) (e : α)
    (hl : w.lists lref = some l) (hwf : ListWF w.heap l ids ds) :
    tk_list_insert_before w lref (tk_list_end lref) e =
      tk_list_push_back w lref e ∧
    tk_list_insert_before w lref (tk_list_begin w lref) e =
      tk_list_push_front w lref e := by
  obtain ⟨hc, htail, hsize, hnd⟩ := hwf
  have hhead : l.head = ids.head? := chain_head hc
  have hend : tk_list_get_node_from_iter (α := α) lref (tk_list_end lref) =
      .node none := by
    simp [tk_list_get_node_from_iter, tk_list_end, vtDeref, g_list_vtable,
      TK_DEFINE_ITERATOR_VTABLE]
  constructor
  · simp [tk_list_insert_before, hl, hend]
  · cases hh : l.head with
    | some hd =>
      have hbeg : tk_list_get_node_from_iter (α := α) lref (tk_list_begin w lref) =
          .node (some hd) := by
        simp [tk_list_get_node_from_iter, tk_list_begin, hl, hh, vtDeref,
          g_list_vtable, TK_DEFINE_ITERATOR_VTABLE]
      simp [tk_list_insert_before, hl, hbeg, hh]
    | none =>
      have hbeg : tk_list_get_node_from_iter (α := α) lref (tk_list_begin w lref) =
          .node none := by
        simp [tk_list_get_node_from_iter, tk_list_begin, hl, hh, vtDeref,
          g_list_vtable, TK_DEFINE_ITERATOR_VTABLE]
      have hids : ids = [] := by
        cases ids with
        | nil => rfl
        | cons x xs => rw [hhead] at hh; simp at hh
      have ht0 : l.tail = none := by rw [htail, hids]; rfl
      simp only [tk_list_insert_before, hl, hbeg]
      simp only [tk_list_push_back, tk_list_push_front, hl]
      cases hcr : tk_list_node_create w e l.element_size with
      | mk r wc =>
        cases r with
        | none => rfl
        | some n => simp only [ht0, hh]

theorem c2_witness :
    sampleW.lists 100 = some sampleList ∧
    tk_list_insert_before sampleW 100 (tk_list_end 100) (42 : Nat) =
      tk_list_push_back sampleW 100 42 ∧
    tk_list_insert_before sampleW 100 (tk_list_begin sampleW 100) (42 : Nat) =
      tk_list_push_front sampleW 100 42 :=
  ⟨rfl,
   (c2_insert_before_end_begin sampleW 100 sampleList [1, 2, 3] [10, 20, 30]
      42 rfl sampleWF).1,
   (c2_insert_before_end_begin sampleW 100 sampleList [1, 2, 3] [10, 20, 30]
      42 rfl sampleWF).2⟩

/-- A failing `tk_list_node_create` returns `none` and leaves the heap,
the list store and the set of allocated blocks unchanged (the partially
allocated node block is freed again). -/
theorem node_create_fails {α : Type} (w : World α) (e : α) (es : Nat)
    (hfresh : ∀ x ∈ w.allocated, x < w.nextAddr)
    (hfail : nodeCreateFails w) :
    ∃ w1, tk_list_node_create w e es = (none, w1) ∧
      w1.heap = w.heap ∧ w1.lists = w.lists ∧ w1.allocated = w.allocated := by
  rcases hfail with ⟨rest, hrest⟩ | ⟨rest, hrest⟩
  · refine ⟨{ w with allocOutcomes := rest }, ?_, rfl, rfl, rfl⟩
    simp [tk_list_node_create, malloc, hrest]
  · have hnm : w.nextAddr ∉ w.allocated := fun hmem => lt_irrefl _ (hfresh _ hmem)
    refine ⟨freeBlock { w with allocOutcomes := rest, nextAddr := w.nextAddr + 1, allocated := w.allocated ++ [w.nextAddr] } w.nextAddr, ?_, rfl, rfl, ?_⟩
    · simp [tk_list_node_create, malloc, hrest]
    · simp [freeBlock, List.erase_append_right _ hnm]

/-- C9: when node or payload allocation fails during `push_back`,
`push_front`, or `insert_before` (given an iterator that passes
validation), the operation returns `TK_E_NOMEM` and the heap, the list
store (hence the list's size, head, tail and element sequence) and the
set of allocated blocks are exactly as before the call: the partially
allocated node is freed and no partial insertion is observable. -/
theorem c9_alloc_failure_rollback {α : Type} (w : World α) (lref : Nat)
    (l : tk_list_t) (it : tk_iterator_t) (e : α)
    (hl : w.lists lref = some l)
    (hfresh : ∀ x ∈ w.allocated, x < w.nextAddr)
    (hfail : nodeCreateFails w)
    (hit : tk_list_get_node_from_iter (α := α) lref it ≠ .invalid) :
    ((tk_list_push_back w lref e).1 = TK_E_NOMEM ∧
      ListStoreUnchanged w (tk_list_push_back w lref e).2) ∧
    ((tk_list_push_front w lref e).1 = TK_E_NOMEM ∧
      ListStoreUnchanged w (tk_list_push_front w lref e).2) ∧
    ((tk_list_insert_before w lref it e).1 = TK_E_NOMEM ∧
      ListStoreUnchanged w (tk_list_insert_before w lref it e).2) := by
  obtain ⟨w1, hcr, hh, hls, hal⟩ := node_create_fails w e l.element_size hfresh hfail
  have hpb : tk_list_push_back w lref e = (TK_E_NOMEM, w1) := by
    simp [tk_list_push_back, hl, hcr]
  have hpf : tk_list_push_front w lref e = (TK_E_NOMEM, w1) := by
    simp [tk_list_push_front, hl, hcr]
  refine ⟨⟨by rw [hpb], by rw [hpb]; exact ⟨hh, hls, hal⟩⟩,
          ⟨by rw [hpf], by rw [hpf]; exact ⟨hh, hls, hal⟩⟩, ?_⟩
  cases hgn : tk_list_get_node_from_iter (α := α) lref it with
  | invalid => exact absurd hgn hit
  | node n =>
    cases n with
    | none =>
      have heq : tk_list_insert_before w lref it e = tk_list_push_back w lref e := by
        simp [tk_list_insert_before, hl, hgn]
      rw [heq, hpb]
      exact ⟨rfl, hh, hls, hal⟩
    | some bn =>
      by_cases hhd : l.head = some bn
      · have heq : tk_list_insert_before w lref it e = tk_list_push_front w lref e := by
          simp [tk_list_insert_before, hl, hgn, hhd]
        rw [heq, hpf]
        exact ⟨rfl, hh, hls, hal⟩
      · have heq : tk_list_insert_before w lref it e = (TK_E_NOMEM, w1) := by
          simp [tk_list_insert_before, hl, hgn, hhd, hcr]
        rw [heq]
        exact ⟨rfl, hh, hls, hal⟩

theorem c9_witness :
    nodeCreateFails sampleWFail ∧
    (∀ x ∈ sampleWFail.allocated, x < sampleWFail.nextAddr) ∧
    (tk_list_push_back sampleWFail 100 (7 : Nat)).1 = TK_E_NOMEM ∧
    ListStoreUnchanged sampleWFail (tk_list_push_back sampleWFail 100 7).2 ∧
    (tk_list_insert_before sampleWFail 100 (tk_list_end 100) (7 : Nat)).1 =
      TK_E_NOMEM :=
  have h := c9_alloc_failure_rollback sampleWFail 100 sampleList
    (tk_list_end 100) 7 rfl (by decide) (Or.inl ⟨[], rfl⟩) (by decide)
  ⟨Or.inl ⟨[], rfl⟩, by decide, h.1.1, h.1.2, h.2.2.1⟩

/-- `tk_list_node_destroy` at a live node: the node leaves the heap and
both its blocks (payload first, then the node) are freed. -/
theorem node_destroy_eq {α : Type} (w : World α) (i : Nat) (nd : tk_list_node_t α)
    (hlook : w.heap i = some nd) :
    tk_list_node_destroy w i =
      { w with heap := delHeap w.heap i,
               allocated := (w.allocated.erase nd.dataAddr).erase i } := by
  simp [tk_list_node_destroy, hlook, freeBlock]

/-- The element sequence of a list header that matches a chain. -/
theorem seq_of_chain {α : Type} {h' : Heap α} {ids : List Nat} {ds : List α}
    (l3 : tk_list_t)
    (hch : Chain h' none ids.head? ids ds)
    (hhd : l3.head = ids.head?) (hsz : l3.size = ids.length) :
    listToSeq h' l3 = ds := by
  rw [listToSeq, hsz, hhd]
  exact chain_chase hch _ le_rfl

/-- C1: erasing a valid iterator that designates node `i` of a well-formed
non-empty list removes exactly that node — the element sequence loses
precisely the element stored there — decreases the size by one, and
returns an iterator whose `get` is the old successor's element, or the
past-the-end iterator of the list when the erased node was the tail. -/
theorem c1_erase_at_spec {α : Type} (w : World α) (lref : Nat) (l : tk_list_t)
    (it : tk_iterator_t) (a b : List Nat) (i : Nat) (da db : List α) (d : α)
    (hl : w.lists lref = some l)
    (hwf : ListWF w.heap l (a ++ i :: b) (da ++ d :: db))
    (hlen : da.length = a.length)
    (hit : it = ⟨some .listVt, .listSt ⟨some i, lref⟩⟩) :
    ∃ l', ((tk_list_erase_at w lref it).2).lists lref = some l' ∧
      l'.size + 1 = l.size ∧
      listToSeq ((tk_list_erase_at w lref it).2).heap l' = da ++ db ∧
      (match b.head? with
       | some j =>
          (tk_list_erase_at w lref it).1 =
            ⟨some .listVt, .listSt ⟨some j, lref⟩⟩ ∧
          tk_iter_get ((tk_list_erase_at w lref it).2)
            ((tk_list_erase_at w lref it).1) = db.head?
       | none => (tk_list_erase_at w lref it).1 = tk_list_end lref) := by
  subst hit
  obtain ⟨hc, htail, hsize, hnd⟩ := hwf
  rw [List.nodup_append] at hnd
  obtain ⟨hnda, hndib, hdisj⟩ := hnd
  obtain ⟨hib, hndb⟩ := List.nodup_cons.mp hndib
  have hia : i ∉ a := fun hmem => hdisj hmem (by simp)
  have hab : ∀ x ∈ a, x ∉ b := fun x hx hxb => hdisj hx (by simp [hxb])
  obtain ⟨nd, hheap, hprev, hnext, hdata, hbchain⟩ :=
    chain_extract a none l.head da hc hlen
  have hhead : l.head = (a ++ i :: b).head? := chain_head hc
  have hlen_ab : l.size = a.length + b.length + 1 := by
    rw [hsize]; simp only [List.length_append, List.length_cons]; omega
  have hne : ¬ (tk_list_is_empty w lref = true) := by
    simp [tk_list_is_empty, hl, hlen_ab]
  have hgn : tk_list_get_node_from_iter (α := α) lref
      ⟨some .listVt, .listSt ⟨some i, lref⟩⟩ = .node (some i) := by
    simp [tk_list_get_node_from_iter, vtDeref, g_list_vtable,
      TK_DEFINE_ITERATOR_VTABLE]
  have hplmem : ∀ j, nd.prev = some j → j ∈ a := by
    intro j hj
    rw [hprev] at hj
    cases hga : a.getLast? with
    | none => simp [prevLink, hga] at hj
    | some x =>
      simp only [prevLink, hga, Option.some.injEq] at hj
      exact hj ▸ List.mem_of_getLast?_eq_some hga
  have hbh_mem : ∀ j, nd.next = some j → j ∈ b := by
    intro j hj
    rw [hnext] at hj
    cases b with
    | nil => simp at hj
    | cons y bs =>
      simp only [List.head?_cons, Option.some.injEq] at hj
      simp [← hj]
  have hpl_ne_i : ∀ j, nd.prev = some j → j ≠ i :=
    fun j hj hji => hia (hji ▸ hplmem j hj)
  have hbh_ne_i : ∀ j, nd.next = some j → j ≠ i :=
    fun j hj hji => hib (hji ▸ hbh_mem j hj)
  have hplb : ∀ j ∈ b, some j ≠ nd.prev := by
    intro j hj hcon
    exact hab _ (hplmem j hcon.symm) hj
  cases hpv : nd.prev with
  | some p =>
    have hpi : p ≠ i := hpl_ne_i p hpv
    have hpmem : p ∈ a := hplmem p hpv
    have ha_ne : a ≠ [] := List.ne_nil_of_mem hpmem
    have hpla : prevLink a none = some p := hprev.symm.trans hpv
    have hheadab : l.head = (a ++ b).head? := by
      cases a with
      | nil => exact absurd rfl ha_ne
      | cons z zs => simpa using hhead
    cases hnx : nd.next with
    | some nx =>
      have hxi : nx ≠ i := hbh_ne_i nx hnx
      have hxmem : nx ∈ b := hbh_mem nx hnx
      have hpx : p ≠ nx := fun hcon =>
        hab p hpmem (by rw [hcon]; exact hxmem)
      have hbh2 : b.head? = some nx := hnext.symm.trans hnx
      have hE : tk_list_erase_at w lref
          (⟨some .listVt, .listSt ⟨some i, lref⟩⟩ : tk_iterator_t) =
          (⟨some .listVt, .listSt ⟨some nx, lref⟩⟩,
           { w with
               heap := delHeap (updHeap (updHeap w.heap p
                   (fun pn => { pn with next := some nx })) nx
                   (fun xn => { xn with prev := some p })) i,
               lists := updLists w.lists lref { l with size := l.size - 1 },
               allocated := (w.allocated.erase nd.dataAddr).erase i }) := by
        unfold tk_list_erase_at
        rw [if_neg hne]
        simp only [hl, hgn, hheap, hpv, hnx]
        rw [node_destroy_eq _ i nd
          (by simp [updHeap, Ne.symm hpi, Ne.symm hxi, hheap])]
      have hchain' : Chain (delHeap (updHeap (updHeap w.heap p
            (fun pn => { pn with next := some nx })) nx
            (fun xn => { xn with prev := some p })) i) none
          ((a ++ b).head?) (a ++ b) (da ++ db) := by
        refine chain_erase_main _ hbchain ?_ ?_ ?_ hndb hib ?_ a none l.head da
          hc hlen hpla hnda hia hab
        · intro j hj
          rw [hbh2] at hj
          injection hj with hjx
          subst hjx
          simp [delHeap, updHeap, hxi, Ne.symm hxi, hpx, hpx.symm, hbh2]
        · intro j hj
          injection hj with hjp
          subst hjp
          simp [delHeap, updHeap, hpi, Ne.symm hpi, hpx, hpx.symm, hbh2]
        · intro j hji hjbh hjpl
          rw [hbh2] at hjbh
          have hjx : j ≠ nx := fun hcon => hjbh (by rw [hcon])
          have hjp : j ≠ p := fun hcon => hjpl (by rw [hcon])
          simp [delHeap, updHeap, hji, hjx, hjp]
        · intro j hj
          rw [← hpv]
          exact hplb j hj
      rw [hE]
      refine ⟨{ l with size := l.size - 1 }, by simp [updLists], by simp; omega,
        ?_, ?_⟩
      · refine seq_of_chain _ hchain' hheadab ?_
        have h1 : (da ++ db).length = a.length + b.length := by
          have h2 := chain_length hbchain
          simp [List.length_append] at h2 ⊢
          omega
        have h3 := chain_length hchain'
        simp only [List.length_append] at h3 ⊢
        omega
      · simp only [hbh2]
        refine ⟨by trivial, ?_⟩
        cases b with
        | nil => simp at hbh2
        | cons y bs =>
          simp only [List.head?_cons, Option.some.injEq] at hbh2
          subst hbh2
          rw [List.head?_cons] at hbchain
          cases hbchain with
          | cons _ _ ynd _ _ hylook hyprev hyrest =>
            simp [tk_iter_get, vtDeref, g_list_vtable,
              TK_DEFINE_ITERATOR_VTABLE, tk_list_iter_get, delHeap, updHeap,
              hxi, Ne.symm hxi, hpx.symm, hylook]
    | none =>
      have hb0 : b = [] := by
        cases b with
        | nil => rfl
        | cons y bs => rw [hnx] at hnext; simp at hnext
      subst hb0
      have hdb0 : db = [] := by
        have hlb : db.length = 0 := by simpa using (chain_length hbchain).symm
        exact List.length_eq_zero.mp hlb
      subst hdb0
      have hbh2 : (([] : List Nat)).head? = (none : Option Nat) := rfl
      have hE : tk_list_erase_at w lref
          (⟨some .listVt, .listSt ⟨some i, lref⟩⟩ : tk_iterator_t) =
          (tk_list_end lref,
           { w with
               heap := delHeap (updHeap w.heap p
                   (fun pn => { pn with next := none })) i,
               lists := updLists w.lists lref
                 { l with tail := some p, size := l.size - 1 },
               allocated := (w.allocated.erase nd.dataAddr).erase i }) := by
        unfold tk_list_erase_at
        rw [if_neg hne]
        simp only [hl, hgn, hheap, hpv, hnx]
        rw [node_destroy_eq _ i nd (by simp [updHeap, Ne.symm hpi, hheap])]
      have hchain' : Chain (delHeap (updHeap w.heap p
            (fun pn => { pn with next := none })) i) none
          ((a ++ ([] : List Nat)).head?) (a ++ []) (da ++ []) := by
        refine chain_erase_main _ hbchain ?_ ?_ ?_ hndb hib ?_ a none l.head da
          hc hlen hpla hnda hia hab
        · intro j hj
          simp at hj
        · intro j hj
          injection hj with hjp
          subst hjp
          simp [delHeap, updHeap, hpi, Ne.symm hpi]
        · intro j hji hjbh hjpl
          have hjp : j ≠ p := fun hcon => hjpl (by rw [hcon])
          simp [delHeap, updHeap, hji, hjp]
        · intro j hj
          simp at hj
      have hheadab : l.head = (a ++ ([] : List Nat)).head? := by
        cases a with
        | nil => exact absurd rfl ha_ne
        | cons z zs => simpa using hhead
      rw [hE]
      refine ⟨{ l with tail := some p, size := l.size - 1 },
        by simp [updLists], by simp; omega, ?_, ?_⟩
      · refine seq_of_chain _ hchain' hheadab ?_
        have h3 := chain_length hchain'
        simp only [List.length_append] at h3 ⊢
        omega
      · simp only [hbh2]
  | none =>
    have ha0 : a = [] := by
      cases a with
      | nil => rfl
      | cons z zs =>
        exfalso
        rw [hpv] at hprev
        have hgl := List.getLast?_eq_getLast_of_ne_nil
          (l := z :: zs) (by simp)
        simp [prevLink, hgl] at hprev
    subst ha0
    have hda0 : da = [] := List.length_eq_zero.mp hlen
    subst hda0
    have hpla : prevLink [] (none : Option Nat) = none := rfl
    have hhead0 : l.head = some i := by simpa using hhead
    cases hnx : nd.next with
    | some nx =>
      have hxi : nx ≠ i := hbh_ne_i nx hnx
      have hbh2 : b.head? = some nx := hnext.symm.trans hnx
      have hE : tk_list_erase_at w lref
          (⟨some .listVt, .listSt ⟨some i, lref⟩⟩ : tk_iterator_t) =
          (⟨some .listVt, .listSt ⟨some nx, lref⟩⟩,
           { w with
               heap := delHeap (updHeap w.heap nx
                   (fun xn => { xn with prev := none })) i,
               lists := updLists w.lists lref
                 { l with head := some nx, size := l.size - 1 },
               allocated := (w.allocated.erase nd.dataAddr).erase i }) := by
        unfold tk_list_erase_at
        rw [if_neg hne]
        simp only [hl, hgn, hheap, hpv, hnx]
        rw [node_destroy_eq _ i nd (by simp [updHeap, Ne.symm hxi, hheap])]
      have hchain' : Chain (delHeap (updHeap w.heap nx
            (fun xn => { xn with prev := none })) i) none
          ((([] : List Nat) ++ b).head?) ([] ++ b) (([] : List α) ++ db) := by
        refine chain_erase_main _ hbchain ?_ ?_ ?_ hndb hib ?_ [] none l.head []
          hc rfl hpla List.nodup_nil (by simp) (by simp)
        · intro j hj
          rw [hbh2] at hj
          injection hj with hjx
          subst hjx
          simp [delHeap, updHeap, hxi, Ne.symm hxi, hbh2]
        · intro j hj
          simp at hj
        · intro j hji hjbh hjpl
          rw [hbh2] at hjbh
          have hjx : j ≠ nx := fun hcon => hjbh (by rw [hcon])
          simp [delHeap, updHeap, hji, hjx]
        · intro j hj
          simp
      rw [hE]
      refine ⟨{ l with head := some nx, size := l.size - 1 },
        by simp [updLists], by simp; omega, ?_, ?_⟩
      · refine seq_of_chain _ hchain' (by simpa using hbh2.symm) ?_
        show l.size - 1 = (([] : List Nat) ++ b).length
        have hlab : l.size = b.length + 1 := by simpa using hlen_ab
        simp only [List.nil_append]
        omega
      · simp only [hbh2]
        refine ⟨by trivial, ?_⟩
        cases b with
        | nil => simp at hbh2
        | cons y bs =>
          simp only [List.head?_cons, Option.some.injEq] at hbh2
          subst hbh2
          rw [List.head?_cons] at hbchain
          cases hbchain with
          | cons _ _ ynd _ _ hylook hyprev hyrest =>
            simp [tk_iter_get, vtDeref, g_list_vtable,
              TK_DEFINE_ITERATOR_VTABLE, tk_list_iter_get, delHeap, updHeap,
              hxi, Ne.symm hxi, hylook]
    | none =>
      have hb0 : b = [] := by
        cases b with
        | nil => rfl
        | cons y bs => rw [hnx] at hnext; simp at hnext
      subst hb0
      have hdb0 : db = [] := by
        have hlb : db.length = 0 := by simpa using (chain_length hbchain).symm
        exact List.length_eq_zero.mp hlb
      subst hdb0
      have hE : tk_list_erase_at w lref
          (⟨some .listVt, .listSt ⟨some i, lref⟩⟩ : tk_iterator_t) =
          (tk_list_end lref,
           { w with
               heap := delHeap w.heap i,
               lists := updLists w.lists lref
                 { l with head := none, tail := none, size := l.size - 1 },
               allocated := (w.allocated.erase nd.dataAddr).erase i }) := by
        unfold tk_list_erase_at
        rw [if_neg hne]
        simp only [hl, hgn, hheap, hpv, hnx]
        rw [node_destroy_eq _ i nd hheap]
      rw [hE]
      refine ⟨{ l with head := none, tail := none, size := l.size - 1 },
        by simp [updLists], by simp; omega, ?_, rfl⟩
      have hsz0 : l.size - 1 = 0 := by
        simp only [List.length_append] at hlen_ab
        simp at hlen_ab
        omega
      simp [listToSeq, hsz0, chase]

theorem c1_witness :
    sampleW.lists 100 = some sampleList ∧
    ListWF sampleW.heap sampleList [1, 2, 3] [10, 20, 30] ∧
    (∃ l', ((tk_list_erase_at sampleW 100
          (⟨some .listVt, .listSt ⟨some 2, 100⟩⟩ : tk_iterator_t)).2).lists 100 =
        some l' ∧
      l'.size + 1 = 3 ∧
      listToSeq ((tk_list_erase_at sampleW 100
          (⟨some .listVt, .listSt ⟨some 2, 100⟩⟩ : tk_iterator_t)).2).heap l' =
        [10, 30] ∧
      (tk_list_erase_at sampleW 100
          (⟨some .listVt, .listSt ⟨some 2, 100⟩⟩ : tk_iterator_t)).1 =
        ⟨some .listVt, .listSt ⟨some 3, 100⟩⟩ ∧
      tk_iter_get ((tk_list_erase_at sampleW 100
          (⟨some .listVt, .listSt ⟨some 2, 100⟩⟩ : tk_iterator_t)).2)
        ((tk_list_erase_at sampleW 100
          (⟨some .listVt, .listSt ⟨some 2, 100⟩⟩ : tk_iterator_t)).1) = some 30) :=
  ⟨rfl, sampleWF,
   c1_erase_at_spec sampleW 100 sampleList _ [1] [3] 2 [10] [30] 20 rfl
     sampleWF rfl rfl⟩

end Tk
